import Mathlib

/-!
Shallow embedding of `pkg/skbn/s3.go` (S3 transfer layer of the skbn
repository): path splitting and resolution, the session-provider retry loop,
the lister's prefix stripping, the download/upload retry loops, the
sequential-write adapter, the multipart part-size helper, and the upload
content-type peek on the source reader.

Strings are modelled as `List Char` (Go operates on bytes; every separator
involved is ASCII `'/'`).  Byte streams are modelled as `List Nat`.  Machine
integers (`int64` sizes) are modelled as `Nat`, faithful for the non-negative
ranges the claims quantify over.  Network outcomes (session construction,
health probe, per-attempt download/upload results, read errors) are modelled
as outcome functions indexed by the 1-based attempt number, and the Go
`for attempt < attempts` loops as fuel recursion with the same counter.
-/

namespace Skbn

/-- Model of Go `strings.Split(path, "/")` (s3.go lines 23, 60, 87, 148):
splits on the separator, always yielding at least one (possibly empty)
segment. -/
def goSplit : List Char → List (List Char)
  | [] => [[]]
  | c :: cs =>
    if c = '/' then [] :: goSplit cs
    else
      match goSplit cs with
      | [] => [[c]]
      | h :: t => (c :: h) :: t

/-- Model of Go `strings.Join(l, "/")`, also the spec wording "segments
joined by `/`". -/
def joinSlash : List (List Char) → List Char
  | [] => []
  | [a] => a
  | a :: b :: t => a ++ '/' :: joinSlash (b :: t)

/-- Component pass of Go `path/filepath.Clean` (Unix rules), operating on the
slash-split components: empty and `.` components are dropped, `..` pops the
previously kept component unless there is nothing poppable (at the root it is
dropped, in a relative path it is kept).  `out` is the accumulator in
reverse order. -/
def cleanAux (rooted : Bool) : List (List Char) → List (List Char) → List (List Char)
  | out, [] => out.reverse
  | out, c :: cs =>
    if c = [] ∨ c = ['.'] then cleanAux rooted out cs
    else if c = ['.', '.'] then
      match out with
      | [] => if rooted then cleanAux rooted [] cs else cleanAux rooted [c] cs
      | h :: t => if h = ['.', '.'] then cleanAux rooted (c :: out) cs else cleanAux rooted t cs
    else cleanAux rooted (c :: out) cs

/-- Model of Go `path/filepath.Clean` on Unix: lexical simplification of a
path (used by `filepath.Join`, which `initS3Variables` calls). -/
def goClean (s : List Char) : List Char :=
  match s with
  | [] => ['.']
  | c :: _ =>
    let rooted := c == '/'
    let comps := cleanAux rooted [] (goSplit s)
    let res := joinSlash comps
    if rooted then '/' :: res
    else if res = [] then ['.'] else res

/-- Model of Go `path/filepath.Join(elems...)`: skip leading empty elements,
join the rest with `/`, and `Clean` the result; all-empty input yields the
empty string. -/
def goJoin : List (List Char) → List Char
  | [] => []
  | e :: es => if e = [] then goJoin es else goClean (joinSlash (e :: es))

/-- `validateS3Path` (s3.go lines 259-264): accepts any split with at least
one segment, otherwise reports an illegal-path error. -/
def validateS3Path (pathSplit : List (List Char)) : Option Unit :=
  if 1 ≤ pathSplit.length then none else some ()

/-- `initS3Variables` (s3.go lines 266-271): bucket is the first segment,
key is `filepath.Join` of the remaining segments.  The `[]` case is
unreachable in the program (Go would panic on `split[0]`); it is given a
dummy value so the model is total. -/
def initS3Variables : List (List Char) → List Char × List Char
  | [] => ([], [])
  | bucket :: rest => (bucket, goJoin rest)

/-- The file-name half of Go `path/filepath.Split(path)` (s3.go line 156):
the longest slash-free suffix of the path. -/
def fileNameOf (s : List Char) : List Char :=
  (s.reverse.takeWhile (fun c => c != '/')).reverse

/-- Destination resolution of `UploadToS3` (s3.go lines 148-159): split the
destination path; when it has exactly one segment, append the base file name
of `fromPath`; then resolve bucket and key. -/
def uploadResolve (toPath fromPath : List Char) : List Char × List Char :=
  let pSplit := goSplit toPath
  initS3Variables (if pSplit.length = 1 then pSplit ++ [fileNameOf fromPath] else pSplit)

/-- Does `pat` occur at the head of `s`?  (Bool-valued matcher used to model
Go `strings.Replace`.) -/
def hasPfx : List Char → List Char → Bool
  | [], _ => true
  | _ :: _, [] => false
  | p :: ps, c :: cs => p == c && hasPfx ps cs

/-- Remove the first occurrence of the non-empty pattern `pat` from `s`
(identity when `pat` does not occur). -/
def removeFirst : List Char → List Char → List Char
  | [], _ => []
  | c :: cs, pat =>
    if hasPfx pat (c :: cs) then (c :: cs).drop pat.length else c :: removeFirst cs pat

/-- Model of Go `strings.Replace(s, old, "", 1)` (s3.go line 73): replacing
the first occurrence of `old` by the empty string; with `old = ""` Go inserts
the empty replacement at the start, leaving `s` unchanged. -/
def replaceFirst (s pat : List Char) : List Char :=
  if pat = [] then s else removeFirst s pat

/-- Key transformation of `GetListOfFilesFromS3` (s3.go lines 66-76): for
each key the store returns under the resolved prefix, strip the prefix via
`strings.Replace(line, s3Path, "", 1)`, preserving the store-returned
order.  `keys` stands for the concatenation of `Contents` over all pages. -/
def getListOfFilesFromS3 (s3Path : List Char) (keys : List (List Char)) : List (List Char) :=
  keys.map (fun line => replaceFirst line s3Path)

/-- `calculatePartSize` (s3.go lines 219-226): Go `int64` division is
truncating, i.e. floor on the non-negative sizes modelled here. -/
def calculatePartSize (fileSize : Nat) : Nat :=
  let partSize := fileSize / 10000
  if partSize < 5 * 1024 * 1024 then 5 * 1024 * 1024 else partSize

/-- Retry loop of `GetClientToS3` (s3.go lines 25-54).  The outcome function
`o` gives, for each 1-based attempt number, whether session construction
succeeded (`.1`) and whether the health probe succeeded (`.2`; consulted only
when construction succeeded).  Result: `(some (), none)` models
`return s, nil`, `(none, some a)` models `return nil, err` on attempt `a`,
and `(none, none)` models the `return nil, nil` after the loop. -/
def getClientLoop (o : Nat → Bool × Bool) : Nat → Nat → Option Unit × Option Nat
  | 0, _ => (none, none)
  | fuel + 1, attempt =>
    let a := attempt + 1
    if (o a).1 = false then
      if a = 3 then (none, some a) else getClientLoop o fuel a
    else if (o a).2 = true then (some (), none)
    else if a = 3 then (none, some a) else getClientLoop o fuel a

/-- `GetClientToS3` (s3.go lines 22-55): 3 attempts, starting the loop at
`attempt = 0` with fuel for the `attempt < attempts` condition. -/
def getClientToS3 (o : Nat → Bool × Bool) : Option Unit × Option Nat :=
  getClientLoop o 3 0

/-- `GetClientToS3` restricted to the finitely many outcome sequences over
its 3 attempts (index `i` holds the outcome of attempt `i + 1`). -/
def getClientToS3Seq (o : Fin 3 → Bool × Bool) : Option Unit × Option Nat :=
  getClientToS3 (fun n => if h : 0 < n ∧ n ≤ 3 then o ⟨n - 1, by omega⟩ else (true, true))

/-- Retry loop of `DownloadFromS3` (s3.go lines 96-134).  `o a` is the error
of the `downloader.Download` call on attempt `a` (`none` = success).  Returns
the surfaced error together with the number of attempts performed. -/
def downloadLoop (o : Nat → Option Nat) : Nat → Nat → Option Nat × Nat
  | 0, attempt => (none, attempt)
  | fuel + 1, attempt =>
    let a := attempt + 1
    match o a with
    | some e => if a = 3 then (some e, a) else downloadLoop o fuel a
    | none => (none, a)

/-- `DownloadFromS3` retry behaviour (s3.go lines 96-134): 3 attempts. -/
def downloadFromS3 (o : Nat → Option Nat) : Option Nat × Nat :=
  downloadLoop o 3 0

/-- Caller-visible outcome of `UploadToS3`: success, the storage error of the
last attempt, or a read error from the content-type peek. -/
inductive UploadResult
  | ok
  | storageErr (e : Nat)
  | readErr (e : Nat)
deriving DecidableEq

/-- Retry loop of `UploadToS3` (s3.go lines 161-215).  On each attempt the
source reader is read first (`r a` is a non-EOF read error, which returns
immediately), then `uploader.Upload` runs (`o a` is its error).  Returns the
outcome together with the number of attempts performed. -/
def uploadLoop (r : Nat → Option Nat) (o : Nat → Option Nat) : Nat → Nat → UploadResult × Nat
  | 0, attempt => (UploadResult.ok, attempt)
  | fuel + 1, attempt =>
    let a := attempt + 1
    match r a with
    | some e => (UploadResult.readErr e, a)
    | none =>
      match o a with
      | some e => if a = 3 then (UploadResult.storageErr e, a) else uploadLoop r o fuel a
      | none => (UploadResult.ok, a)

/-- `UploadToS3` retry behaviour (s3.go lines 161-215): 3 attempts. -/
def uploadToS3 (r : Nat → Option Nat) (o : Nat → Option Nat) : UploadResult × Nat :=
  uploadLoop r o 3 0

/-- `downloader.Concurrency = 1` (s3.go line 106). -/
def downloaderConcurrency : Nat := 1

/-- `writerWrapper.WriteAt` (s3.go lines 137-143): forwards every chunk to
the sequential sink `w.Write(p)`, ignoring the requested offset.  The sink is
modelled by the list of bytes written so far. -/
def writeAt (sink : List Nat) (p : List Nat) (off : Int) : List Nat :=
  sink ++ p

/-- The sink contents after a sequence of `WriteAt` calls `(off, p)`. -/
def runWriteAt (calls : List (Int × List Nat)) : List Nat :=
  calls.foldl (fun s c => writeAt s c.2 c.1) []

/-- The call sequence is strictly sequential starting at offset `o`: each
chunk begins exactly where the previous one ended (what the SDK guarantees
when `Concurrency` is 1). -/
def seqFrom : Int → List (Int × List Nat) → Bool
  | _, [] => true
  | o, (off, p) :: rest => off == o && seqFrom (o + (p.length : Int)) rest

/-- Reference semantics of a true positional `WriteAt`: place `p` at byte
offset `off`, zero-filling any gap. -/
def positionalWrite (buf : List Nat) (p : List Nat) (off : Nat) : List Nat :=
  buf.take off ++ List.replicate (off - buf.length) 0 ++ p ++ buf.drop (off + p.length)

/-- The sink contents after the same calls under positional semantics. -/
def runPositional (calls : List (Int × List Nat)) : List Nat :=
  calls.foldl (fun s c => positionalWrite s c.2 c.1.toNat) []

/-- State of the `io.Reader` passed to `UploadToS3`: the underlying stream
and the read position. -/
structure GoReader where
  data : List Nat
  pos : Nat
deriving DecidableEq

/-- One Go `reader.Read(buf)` with a buffer of length `k`: reads
`min k remaining` bytes and advances the position (s3.go line 179 with
`k = 512`). -/
def goRead (r : GoReader) (k : Nat) : List Nat × GoReader :=
  let n := min k (r.data.length - r.pos)
  ((r.data.drop r.pos).take n, { data := r.data, pos := r.pos + n })

/-- Reader state before attempt `n + 1` of the `UploadToS3` loop: each prior
attempt performed one 512-byte read (s3.go lines 177-179). -/
def readerAtAttempt (s : List Nat) : Nat → GoReader
  | 0 => { data := s, pos := 0 }
  | n + 1 => (goRead (readerAtAttempt s n) 512).2

/-- The bytes the content-type sniff of attempt `n` sees (`buf[:n]`,
s3.go line 192). -/
def uploadPeekAt (s : List Nat) (n : Nat) : List Nat :=
  (goRead (readerAtAttempt s (n - 1)) 512).1

/-- The body `uploader.Upload` receives on attempt `n`: the reader is passed
as `Body` after the peek, so the store gets exactly the bytes remaining
after the read (s3.go lines 186-193). -/
def uploadBodyAt (s : List Nat) (n : Nat) : List Nat :=
  ((goRead (readerAtAttempt s (n - 1)) 512).2).data.drop
    ((goRead (readerAtAttempt s (n - 1)) 512).2).pos

/-- Byte contents of the 12-byte source stream `"hello, world"`. -/
def helloBytes : List Nat :=
  [104, 101, 108, 108, 111, 44, 32, 119, 111, 114, 108, 100]

/-! ## Helper lemmas -/

theorem goSplit_ne_nil (s : List Char) : goSplit s ≠ [] := by
  match s with
  | [] => simp [goSplit]
  | c :: cs =>
    simp only [goSplit]
    by_cases hc : c = '/'
    · simp [hc]
    · rw [if_neg hc]
      rcases h : goSplit cs with _ | ⟨h₁, t⟩ <;> simp

theorem goSplit_length_pos (s : List Char) : 1 ≤ (goSplit s).length := by
  rcases h : goSplit s with _ | ⟨h₁, t⟩
  · exact absurd h (goSplit_ne_nil s)
  · simp

theorem goSplit_append (e xs : List Char) (he : '/' ∉ e) :
    goSplit (e ++ xs) = (goSplit xs).modifyHead (fun h => e ++ h) := by
  induction e with
  | nil =>
    rcases h : goSplit xs with _ | ⟨h₁, t⟩
    · exact absurd h (goSplit_ne_nil xs)
    · simp [h]
  | cons c e ih =>
    have hc : ¬c = '/' := fun hcc => he (by simp [hcc])
    have he2 : '/' ∉ e := fun hm => he (List.mem_cons_of_mem c hm)
    simp only [List.cons_append, goSplit]
    rw [if_neg hc]
    simp only [List.append_eq]
    rw [ih he2]
    rcases h : goSplit xs with _ | ⟨h₁, t⟩
    · exact absurd h (goSplit_ne_nil xs)
    · simp

theorem goSplit_no_slash (s : List Char) : ∀ seg ∈ goSplit s, '/' ∉ seg := by
  induction s with
  | nil =>
    intro seg hseg
    simp [goSplit] at hseg
    simp [hseg]
  | cons c cs ih =>
    intro seg hseg
    simp only [goSplit] at hseg
    by_cases hc : c = '/'
    · rw [if_pos hc] at hseg
      rcases List.mem_cons.mp hseg with h | h
      · simp [h]
      · exact ih seg h
    · rw [if_neg hc] at hseg
      rcases hsp : goSplit cs with _ | ⟨h₁, t⟩
      · exact absurd hsp (goSplit_ne_nil cs)
      · rw [hsp] at hseg
        rcases List.mem_cons.mp hseg with h | h
        · subst h
          intro hm
          rcases List.mem_cons.mp hm with h | h
          · exact hc h.symm
          · exact ih h₁ (by rw [hsp]; exact List.mem_cons_self h₁ t) h
        · exact ih seg (by rw [hsp]; exact List.mem_cons_of_mem h₁ h)

theorem goSplit_of_no_slash (e : List Char) (he : '/' ∉ e) : goSplit e = [e] := by
  have h := goSplit_append e [] he
  simpa [goSplit] using h

theorem joinSlash_cons (x : Char) (e : List Char) (es : List (List Char)) :
    joinSlash ((x :: e) :: es) = x :: joinSlash (e :: es) := by
  cases es <;> simp [joinSlash]

theorem goSplit_joinSlash (l : List (List Char)) (hl : l ≠ [])
    (hs : ∀ c ∈ l, '/' ∉ c) : goSplit (joinSlash l) = l := by
  induction l with
  | nil => exact absurd rfl hl
  | cons e es ih =>
    cases es with
    | nil =>
      have he : '/' ∉ e := hs e (by simp)
      simpa [joinSlash] using goSplit_of_no_slash e he
    | cons b t =>
      have he : '/' ∉ e := hs e (by simp)
      have hrest : ∀ c ∈ b :: t, '/' ∉ c := fun c hc => hs c (List.mem_cons_of_mem e hc)
      have hjs : joinSlash (e :: b :: t) = e ++ '/' :: joinSlash (b :: t) := rfl
      rw [hjs, goSplit_append e _ he]
      have hsl : goSplit ('/' :: joinSlash (b :: t)) = [] :: goSplit (joinSlash (b :: t)) := by
        simp [goSplit]
      rw [hsl, ih (by simp) hrest]
      simp

theorem cleanAux_clean (rooted : Bool) (l : List (List Char)) :
    ∀ out : List (List Char),
      (∀ c ∈ l, c ≠ [] ∧ c ≠ ['.'] ∧ c ≠ ['.', '.']) →
      cleanAux rooted out l = out.reverse ++ l := by
  induction l with
  | nil =>
    intro out h
    simp [cleanAux]
  | cons c cs ih =>
    intro out h
    obtain ⟨hne, hdot, hdd⟩ := h c (by simp)
    have hrest : ∀ x ∈ cs, x ≠ [] ∧ x ≠ ['.'] ∧ x ≠ ['.', '.'] :=
      fun x hx => h x (List.mem_cons_of_mem c hx)
    simp only [cleanAux]
    rw [if_neg (by simp [hne, hdot]), if_neg hdd, ih (c :: out) hrest]
    simp

theorem goClean_joinSlash (l : List (List Char)) (hl : l ≠ [])
    (h : ∀ c ∈ l, c ≠ [] ∧ c ≠ ['.'] ∧ c ≠ ['.', '.'] ∧ '/' ∉ c) :
    goClean (joinSlash l) = joinSlash l := by
  have hsplit : goSplit (joinSlash l) = l :=
    goSplit_joinSlash l hl (fun c hc => (h c hc).2.2.2)
  have hclean : cleanAux false [] l = l := by
    have := cleanAux_clean false l []
      (fun c hc => ⟨(h c hc).1, (h c hc).2.1, (h c hc).2.2.1⟩)
    simpa using this
  rcases l with _ | ⟨e, es⟩
  · exact absurd rfl hl
  rcases e with _ | ⟨x, e0⟩
  · exact absurd rfl (h [] (by simp)).1
  have hx : ¬x = '/' := by
    intro hxx
    exact (h (x :: e0) (by simp)).2.2.2 (by simp [hxx])
  have hxb : (x == '/') = false := by simp [hx]
  have hform : joinSlash ((x :: e0) :: es) = x :: joinSlash (e0 :: es) :=
    joinSlash_cons x e0 es
  rw [hform] at hsplit ⊢
  simp only [goClean, hxb, hsplit, hclean, Bool.false_eq_true, if_false]
  rw [← hform]
  rw [if_neg (by rw [hform]; simp)]

theorem goJoin_clean (l : List (List Char))
    (h : ∀ c ∈ l, c ≠ [] ∧ c ≠ ['.'] ∧ c ≠ ['.', '.'] ∧ '/' ∉ c) :
    goJoin l = joinSlash l := by
  cases l with
  | nil => rfl
  | cons e es =>
    simp only [goJoin]
    rw [if_neg (h e (by simp)).1]
    exact goClean_joinSlash (e :: es) (by simp) h

theorem goJoin_singleton (f : List Char) (hf : '/' ∉ f) : goJoin [f] = f := by
  by_cases h0 : f = []
  · subst h0; rfl
  by_cases h1 : f = ['.']
  · subst h1; decide
  by_cases h2 : f = ['.', '.']
  · subst h2; decide
  have := goJoin_clean [f] (by
    intro c hc
    simp only [List.mem_singleton] at hc
    subst hc
    exact ⟨h0, h1, h2, hf⟩)
  simpa [joinSlash] using this

theorem goSplit_eq_singleton (s : List Char) (h : (goSplit s).length = 1) :
    goSplit s = [s] := by
  induction s with
  | nil => rfl
  | cons c cs ih =>
    by_cases hc : c = '/'
    · exfalso
      have hred : goSplit (c :: cs) = [] :: goSplit cs := by simp [goSplit, hc]
      rw [hred] at h
      simp only [List.length_cons] at h
      have := goSplit_length_pos cs
      omega
    · rcases hsp : goSplit cs with _ | ⟨h₁, t⟩
      · exact absurd hsp (goSplit_ne_nil cs)
      · have hred : goSplit (c :: cs) = (c :: h₁) :: t := by simp [goSplit, hc, hsp]
        rw [hred] at h ⊢
        simp only [List.length_cons, Nat.add_left_eq_self] at h
        have ht : t = [] := List.length_eq_zero.mp h
        subst ht
        have hlen : (goSplit cs).length = 1 := by rw [hsp]; rfl
        have hcs := ih hlen
        rw [hsp] at hcs
        simp only [List.cons.injEq, and_true] at hcs
        subst hcs
        rfl

theorem fileNameOf_no_slash (s : List Char) : '/' ∉ fileNameOf s := by
  intro hm
  simp only [fileNameOf, List.mem_reverse] at hm
  have := List.mem_takeWhile_imp hm
  simp at this

theorem hasPfx_iff (pat : List Char) : ∀ s, hasPfx pat s = true ↔ ∃ t, s = pat ++ t := by
  induction pat with
  | nil =>
    intro s
    simp [hasPfx]
  | cons p ps ih =>
    intro s
    cases s with
    | nil => simp [hasPfx]
    | cons c cs =>
      simp only [hasPfx, Bool.and_eq_true, beq_iff_eq, ih cs, List.cons_append,
        List.cons.injEq]
      constructor
      · rintro ⟨hpc, t, ht⟩
        exact ⟨t, hpc.symm, ht⟩
      · rintro ⟨t, hct, ht⟩
        exact ⟨hct.symm, t, ht⟩

theorem replaceFirst_of_append (pat t : List Char) :
    replaceFirst (pat ++ t) pat = t := by
  cases pat with
  | nil => simp [replaceFirst]
  | cons p ps =>
    simp only [replaceFirst]
    rw [if_neg (by simp)]
    show removeFirst ((p :: ps) ++ t) (p :: ps) = t
    have hmatch : hasPfx (p :: ps) ((p :: ps) ++ t) = true :=
      (hasPfx_iff (p :: ps) ((p :: ps) ++ t)).mpr ⟨t, rfl⟩
    simp only [List.cons_append, removeFirst]
    rw [if_pos (by simpa using hmatch)]
    show ((p :: ps) ++ t).drop (p :: ps).length = t
    exact List.drop_left (p :: ps) t

theorem zip_map_fst (f : List Char → List Char) (l : List (List Char)) :
    ∀ p ∈ (l.map f).zip l, p.1 = f p.2 := by
  induction l with
  | nil => simp
  | cons a t ih =>
    intro p hp
    simp only [List.map_cons, List.zip_cons_cons, List.mem_cons] at hp
    rcases hp with h | h
    · rw [h]
    · exact ih p h

theorem writeAt_fold_sequential (calls : List (Int × List Nat)) :
    ∀ buf : List Nat, seqFrom (buf.length : Int) calls = true →
      calls.foldl (fun s c => writeAt s c.2 c.1) buf =
        calls.foldl (fun s c => positionalWrite s c.2 c.1.toNat) buf ∧
      calls.foldl (fun s c => writeAt s c.2 c.1) buf =
        buf ++ (calls.map Prod.snd).flatten := by
  induction calls with
  | nil =>
    intro buf h
    simp
  | cons c rest ih =>
    intro buf h
    obtain ⟨off, p⟩ := c
    simp only [seqFrom, Bool.and_eq_true, beq_iff_eq] at h
    obtain ⟨hoff, hrest⟩ := h
    have hoffn : off.toNat = buf.length := by omega
    have hw : writeAt buf p off = buf ++ p := rfl
    have hpw : positionalWrite buf p off.toNat = buf ++ p := by
      rw [hoffn]
      simp only [positionalWrite, List.take_length, Nat.sub_self, List.replicate_zero]
      rw [List.drop_eq_nil_of_le (by omega)]
      simp
    have hrest2 : seqFrom ((buf ++ p).length : Int) rest = true := by
      rw [List.length_append]
      push_cast
      exact hrest
    obtain ⟨ih1, ih2⟩ := ih (buf ++ p) hrest2
    refine ⟨?_, ?_⟩
    · simp only [List.foldl_cons, hw, hpw]
      exact ih1
    · simp only [List.foldl_cons, hw, ih2, List.map_cons, List.flatten_cons]
      simp [List.append_assoc]

/-- The unrolled form of the download retry loop. -/
theorem downloadFromS3_unfold (o : Nat → Option Nat) :
    downloadFromS3 o =
      match o 1 with
      | none => (none, 1)
      | some _ =>
        match o 2 with
        | none => (none, 2)
        | some _ =>
          match o 3 with
          | none => (none, 3)
          | some e => (some e, 3) := by
  cases h1 : o 1 <;> cases h2 : o 2 <;> cases h3 : o 3 <;>
    simp [downloadFromS3, downloadLoop, h1, h2, h3]

/-- The unrolled form of the upload retry loop. -/
theorem uploadToS3_unfold (r o : Nat → Option Nat) :
    uploadToS3 r o =
      match r 1 with
      | some e => (UploadResult.readErr e, 1)
      | none =>
        match o 1 with
        | none => (UploadResult.ok, 1)
        | some _ =>
          match r 2 with
          | some e => (UploadResult.readErr e, 2)
          | none =>
            match o 2 with
            | none => (UploadResult.ok, 2)
            | some _ =>
              match r 3 with
              | some e => (UploadResult.readErr e, 3)
              | none =>
                match o 3 with
                | none => (UploadResult.ok, 3)
                | some e => (UploadResult.storageErr e, 3) := by
  cases hr1 : r 1 <;> cases hr2 : r 2 <;> cases hr3 : r 3 <;>
    cases h1 : o 1 <;> cases h2 : o 2 <;> cases h3 : o 3 <;>
      simp [uploadToS3, uploadLoop, hr1, hr2, hr3, h1, h2, h3]

/-- The unrolled form of the session-provider retry loop. -/
theorem getClientToS3_unfold (o : Nat → Bool × Bool) :
    getClientToS3 o =
      if (o 1).1 = false then
        if (1 : Nat) = 3 then (none, some 1) else
        if (o 2).1 = false then
          if (2 : Nat) = 3 then (none, some 2) else
          if (o 3).1 = false then (none, some 3)
          else if (o 3).2 = true then (some (), none)
          else (none, some 3)
        else if (o 2).2 = true then (some (), none)
        else
          if (2 : Nat) = 3 then (none, some 2) else
          if (o 3).1 = false then (none, some 3)
          else if (o 3).2 = true then (some (), none)
          else (none, some 3)
      else if (o 1).2 = true then (some (), none)
      else
        if (1 : Nat) = 3 then (none, some 1) else
        if (o 2).1 = false then
          if (2 : Nat) = 3 then (none, some 2) else
          if (o 3).1 = false then (none, some 3)
          else if (o 3).2 = true then (some (), none)
          else (none, some 3)
        else if (o 2).2 = true then (some (), none)
        else
          if (2 : Nat) = 3 then (none, some 2) else
          if (o 3).1 = false then (none, some 3)
          else if (o 3).2 = true then (some (), none)
          else (none, some 3) := rfl

/-- Attempt-count bound for the download retry loop: starting at counter
`attempt` with `fuel` iterations allowed, at most `attempt + fuel` attempts
are ever reported. -/
theorem downloadLoop_attempts_le (o : Nat → Option Nat) (fuel : Nat) :
    ∀ attempt, (downloadLoop o fuel attempt).2 ≤ attempt + fuel := by
  induction fuel with
  | zero => intro attempt; simp [downloadLoop]
  | succ k ih =>
    intro attempt
    cases h : o (attempt + 1) with
    | none => simp [downloadLoop, h]
    | some e =>
      by_cases h3 : attempt + 1 = 3
      · rw [h3] at h
        simp [downloadLoop, h3, h] <;> omega
      · simp [downloadLoop, h, h3]
        exact le_trans (ih (attempt + 1)) (by omega)

/-- Attempt-count bound for the upload retry loop. -/
theorem uploadLoop_attempts_le (r o : Nat → Option Nat) (fuel : Nat) :
    ∀ attempt, (uploadLoop r o fuel attempt).2 ≤ attempt + fuel := by
  induction fuel with
  | zero => intro attempt; simp [uploadLoop]
  | succ k ih =>
    intro attempt
    cases hr : r (attempt + 1) with
    | some e => simp [uploadLoop, hr]
    | none =>
      cases h : o (attempt + 1) with
      | none => simp [uploadLoop, hr, h]
      | some e =>
        by_cases h3 : attempt + 1 = 3
        · rw [h3] at h hr
          simp [uploadLoop, h3, hr, h] <;> omega
        · simp [uploadLoop, hr, h, h3]
          exact le_trans (ih (attempt + 1)) (by omega)

/-! ## Claim theorems -/

/-- Claim C1 (code_bug evidence): on the 12-byte source stream
`"hello, world"`, the body `UploadToS3` hands to the store on its first
attempt is empty — the initial up-to-512-byte sniff read consumed the whole
stream, so the uploaded body is not the entire source stream and a download
of the uploaded object cannot return the original bytes. -/
theorem c1_upload_body_loses_peeked_prefix :
    uploadBodyAt helloBytes 1 = [] ∧
    uploadPeekAt helloBytes 1 = helloBytes ∧
    uploadBodyAt helloBytes 1 ≠ helloBytes := by
  decide

/-- Claim C2 counterexample: at `fileSize = 52428800001`, the raw division
by 10000 is `5242880 ≥ 5 MiB`, yet `calculatePartSize` returns the floor
`5242880`, not `ceil(fileSize / 10000) = (fileSize + 9999) / 10000`, and the
resulting part count `ceil(fileSize / partSize)` is 10001, exceeding the
10,000-part ceiling. -/
theorem c2_counterexample :
    5 * 1024 * 1024 ≤ 52428800001 / 10000 ∧
    calculatePartSize 52428800001 ≠ (52428800001 + 9999) / 10000 ∧
    10000 <
      (52428800001 + calculatePartSize 52428800001 - 1) / calculatePartSize 52428800001 := by
  decide

/-- Claim C2 (amended): for every non-negative file size,
`calculatePartSize` returns exactly 5 MiB when the floor of the division by
10000 is below 5 MiB, and otherwise returns the floor (not the ceiling) of
`fileSize / 10000`; consequently the number of parts
`ceil(fileSize / partSize)` never exceeds 10001 (and, by the
counterexample, can reach 10001). -/
theorem c2_part_size_floor (f : Nat) :
    (f / 10000 < 5 * 1024 * 1024 → calculatePartSize f = 5 * 1024 * 1024) ∧
    (5 * 1024 * 1024 ≤ f / 10000 → calculatePartSize f = f / 10000) ∧
    (0 < f → (f + calculatePartSize f - 1) / calculatePartSize f ≤ 10001) := by
  refine ⟨fun h => ?_, fun h => ?_, fun hf => ?_⟩
  · simp only [calculatePartSize]
    rw [if_pos h]
  · simp only [calculatePartSize]
    rw [if_neg (Nat.not_lt.mpr h)]
  · simp only [calculatePartSize]
    by_cases h : f / 10000 < 5 * 1024 * 1024
    · rw [if_pos h]
      omega
    · rw [if_neg h]
      have hq : 5 * 1024 * 1024 ≤ f / 10000 := Nat.not_lt.mp h
      have hq0 : 0 < f / 10000 := by omega
      have hlt : f + f / 10000 - 1 < 10002 * (f / 10000) := by omega
      have := (Nat.div_lt_iff_lt_mul hq0).mpr hlt
      omega

/-- Claim C2 witness: the theorem evaluated at the concrete sizes 1000000
(small: floor enforced to 5 MiB) and 52428800001 (large: floor of the
division returned, part count within 10001). -/
theorem c2_part_size_floor_witness :
    calculatePartSize 1000000 = 5 * 1024 * 1024 ∧
    calculatePartSize 52428800001 = 52428800001 / 10000 ∧
    (52428800001 + calculatePartSize 52428800001 - 1) / calculatePartSize 52428800001 ≤
      10001 :=
  ⟨(c2_part_size_floor 1000000).1 (by decide),
   (c2_part_size_floor 52428800001).2.1 (by decide),
   (c2_part_size_floor 52428800001).2.2 (by decide)⟩

/-- Claim C9: splitting any path string on `/` yields at least one segment,
so `validateS3Path` accepts every input — the illegal-path branch, and with
it the path-validation failure of `GetListOfFilesFromS3`, `DownloadFromS3`
and `UploadToS3` (which all gate on exactly this check), is unreachable for
every input string, including the empty string. -/
theorem c9_path_validation_unreachable :
    ∀ s : List Char, 1 ≤ (goSplit s).length ∧ validateS3Path (goSplit s) = none := by
  intro s
  refine ⟨goSplit_length_pos s, ?_⟩
  simp [validateS3Path, goSplit_length_pos s]

/-- Claim C10 counterexample: on the 3-byte source stream, attempt 1's peek
already exhausts the reader, so the retry attempt uploads the same (empty)
body as the first attempt and leaves the read position unchanged — refuting
that the retry body always differs from the first attempt's. -/
theorem c10_counterexample :
    uploadBodyAt [65, 66, 67] 2 = uploadBodyAt [65, 66, 67] 1 ∧
    (readerAtAttempt [65, 66, 67] 2).pos = (readerAtAttempt [65, 66, 67] 1).pos := by
  decide

/-- Claim C10 (amended): each retry attempt of `UploadToS3` performs a fresh
up-to-512-byte read on the same reader, whose position advances by
`min 512 remaining` per attempt; the peek of attempt `n + 1` reads exactly
the bytes positioned after everything read by earlier attempts, and the body
uploaded on attempt `n + 1` is the remainder after that peek.  When the
source is longer than 512 bytes, the body uploaded on the retry (attempt 2)
differs from the first attempt's body; once the stream is exhausted, further
attempts peek zero bytes and the position no longer changes. -/
theorem c10_retry_consumes_stream (s : List Nat) (n : Nat) :
    (readerAtAttempt s n).data = s ∧
    (readerAtAttempt s (n + 1)).pos =
      (readerAtAttempt s n).pos + min 512 (s.length - (readerAtAttempt s n).pos) ∧
    uploadPeekAt s (n + 1) =
      ((readerAtAttempt s n).data.drop (readerAtAttempt s n).pos).take
        (min 512 (s.length - (readerAtAttempt s n).pos)) ∧
    uploadBodyAt s (n + 1) = s.drop ((readerAtAttempt s (n + 1)).pos) ∧
    (512 < s.length → uploadBodyAt s 2 ≠ uploadBodyAt s 1) := by
  have hdata : ∀ m, (readerAtAttempt s m).data = s := by
    intro m
    induction m with
    | zero => rfl
    | succ k ih => simp [readerAtAttempt, goRead, ih]
  refine ⟨hdata n, ?_, ?_, ?_, ?_⟩
  · simp [readerAtAttempt, goRead, hdata n]
  · simp [uploadPeekAt, goRead, hdata n]
  · simp [uploadBodyAt, readerAtAttempt, goRead, hdata n, hdata (n + 1)]
  · intro hlen heq
    have h1 : uploadBodyAt s 1 = s.drop (0 + min 512 (s.length - 0)) := rfl
    have h2 : uploadBodyAt s 2 =
        s.drop (0 + min 512 (s.length - 0) +
          min 512 (s.length - (0 + min 512 (s.length - 0)))) := rfl
    rw [h1, h2] at heq
    have hlh := congrArg List.length heq
    simp only [List.length_drop] at hlh
    omega

/-- Claim C3 counterexample: there is no sequence of session-construction
and health-probe outcomes over the 3 attempts of `GetClientToS3` for which
it returns a nil session with a nil error — the `return nil, nil` after the
retry loop is dead code, because the third iteration always returns. -/
theorem c3_counterexample :
    ¬ ∃ o : Fin 3 → Bool × Bool, getClientToS3Seq o = (none, none) := by
  decide

/-- Claim C3 (amended): `GetClientToS3` never returns a session handle
together with a non-nil error, and for every sequence of
session-construction and health-probe outcomes it returns either a session
with nil error or a nil session with the final non-nil error; the nil-nil
"no result" sentinel is never produced. -/
theorem c3_no_silent_give_up (o : Nat → Bool × Bool) :
    ¬((getClientToS3 o).1.isSome ∧ (getClientToS3 o).2.isSome) ∧
    getClientToS3 o ≠ (none, none) := by
  rw [getClientToS3_unfold]
  rcases h1 : o 1 with ⟨s1, p1⟩
  rcases h2 : o 2 with ⟨s2, p2⟩
  rcases h3 : o 3 with ⟨s3, p3⟩
  cases s1 <;> cases p1 <;> cases s2 <;> cases p2 <;> cases s3 <;> cases p3 <;>
    simp [h1, h2, h3]

/-- Claim C5: both retry loops perform at most 3 attempts; a success on
attempt 1 (or 2) short-circuits with that attempt count; failures on
attempts 1 and 2 with success on attempt 3 return success after exactly 3
attempts; failures on all 3 attempts surface the final attempt's error after
exactly 3 attempts, never making a 4th.  For `UploadToS3` the per-attempt
outcome scenarios are stated under read-success (`ur n = none`), read errors
being a separate immediate-exit failure mode; the 3-attempt bound holds for
every read outcome as well. -/
theorem c5_retry_discipline (od ou ur : Nat → Option Nat) (e1 e2 e3 : Nat) :
    (downloadFromS3 od).2 ≤ 3 ∧ (uploadToS3 ur ou).2 ≤ 3 ∧
    (od 1 = none → downloadFromS3 od = (none, 1)) ∧
    (od 1 = some e1 → od 2 = none → downloadFromS3 od = (none, 2)) ∧
    (od 1 = some e1 → od 2 = some e2 → od 3 = none → downloadFromS3 od = (none, 3)) ∧
    (od 1 = some e1 → od 2 = some e2 → od 3 = some e3 →
      downloadFromS3 od = (some e3, 3)) ∧
    ((∀ n, ur n = none) → ou 1 = none → uploadToS3 ur ou = (UploadResult.ok, 1)) ∧
    ((∀ n, ur n = none) → ou 1 = some e1 → ou 2 = none →
      uploadToS3 ur ou = (UploadResult.ok, 2)) ∧
    ((∀ n, ur n = none) → ou 1 = some e1 → ou 2 = some e2 → ou 3 = none →
      uploadToS3 ur ou = (UploadResult.ok, 3)) ∧
    ((∀ n, ur n = none) → ou 1 = some e1 → ou 2 = some e2 → ou 3 = some e3 →
      uploadToS3 ur ou = (UploadResult.storageErr e3, 3)) := by
  refine ⟨?_, ?_, ?_, ?_, ?_, ?_, ?_, ?_, ?_, ?_⟩
  · exact le_trans (downloadLoop_attempts_le od 3 0) (by omega)
  · exact le_trans (uploadLoop_attempts_le ur ou 3 0) (by omega)
  · intro h1
    rw [downloadFromS3_unfold]
    simp [h1]
  · intro h1 h2
    rw [downloadFromS3_unfold]
    simp [h1, h2]
  · intro h1 h2 h3
    rw [downloadFromS3_unfold]
    simp [h1, h2, h3]
  · intro h1 h2 h3
    rw [downloadFromS3_unfold]
    simp [h1, h2, h3]
  · intro hur h1
    rw [uploadToS3_unfold]
    simp [hur 1, h1]
  · intro hur h1 h2
    rw [uploadToS3_unfold]
    simp [hur 1, hur 2, h1, h2]
  · intro hur h1 h2 h3
    rw [uploadToS3_unfold]
    simp [hur 1, hur 2, hur 3, h1, h2, h3]
  · intro hur h1 h2 h3
    rw [uploadToS3_unfold]
    simp [hur 1, hur 2, hur 3, h1, h2, h3]

/-- Claim C5 witness: with outcomes failing on attempts 1 and 2 and
succeeding on attempt 3, both operations return success after exactly 3
attempts; with all attempts failing, the download surfaces the third
attempt's error after exactly 3 attempts. -/
theorem c5_retry_discipline_witness :
    downloadFromS3 (fun n => if n ≤ 2 then some n else none) = (none, 3) ∧
    uploadToS3 (fun _ => none) (fun n => if n ≤ 2 then some n else none) =
      (UploadResult.ok, 3) ∧
    downloadFromS3 (fun n => some n) = (some 3, 3) :=
  ⟨(c5_retry_discipline (fun n => if n ≤ 2 then some n else none)
      (fun n => if n ≤ 2 then some n else none) (fun _ => none) 1 2 3).2.2.2.2.1
      (by decide) (by decide) (by decide),
   (c5_retry_discipline (fun n => if n ≤ 2 then some n else none)
      (fun n => if n ≤ 2 then some n else none) (fun _ => none) 1 2 3).2.2.2.2.2.2.2.2.1
      (fun _ => rfl) (by decide) (by decide) (by decide),
   (c5_retry_discipline (fun n => some n)
      (fun n => some n) (fun _ => none) 1 2 3).2.2.2.2.2.1
      (by decide) (by decide) (by decide)⟩

/-- Claim C10 witness: on a 513-byte stream the hypothesis `512 < length`
holds and the theorem yields that the retry body differs from the first
attempt's body. -/
theorem c10_retry_consumes_stream_witness :
    512 < (List.replicate 513 0).length ∧
    uploadBodyAt (List.replicate 513 0) 2 ≠ uploadBodyAt (List.replicate 513 0) 1 :=
  ⟨by rw [List.length_replicate]; omega,
   (c10_retry_consumes_stream (List.replicate 513 0) 0).2.2.2.2
    (by rw [List.length_replicate]; omega)⟩

/-- Claim C4 counterexample: on the path `"/a//b"` (segments
`["", "a", "", "b"]`), resolution returns the empty bucket — not a non-empty
one — and, because `filepath.Join` cleans the path, a key `"a/b"` different
from the remaining segments `["a", "", "b"]` joined by `/` exactly as given
(`"a//b"`). -/
theorem c4_counterexample :
    (initS3Variables (goSplit ['/', 'a', '/', '/', 'b'])).1 = [] ∧
    (initS3Variables (goSplit ['/', 'a', '/', '/', 'b'])).2 ≠
      joinSlash [['a'], [], ['b']] := by
  decide

/-- Claim C4 (amended): for every logical path with at least one segment,
resolution returns the bucket equal to the first segment (which may be
empty) and the key equal to `filepath.Join` of the remaining segments; when
every remaining segment is non-empty and none is `.` or `..`, the key equals
the remaining segments joined by `/` exactly as given (the empty string when
there are none), deterministically and with no side effects. -/
theorem c4_resolution (s : List Char) (b : List Char) (rest : List (List Char))
    (hsf : goSplit s = b :: rest)
    (hclean : ∀ seg ∈ rest, seg ≠ [] ∧ seg ≠ ['.'] ∧ seg ≠ ['.', '.']) :
    initS3Variables (goSplit s) = (b, joinSlash rest) := by
  rw [hsf]
  simp only [initS3Variables]
  have hjoin : goJoin rest = joinSlash rest := by
    apply goJoin_clean
    intro c hc
    have hcs : c ∈ goSplit s := by
      rw [hsf]
      exact List.mem_cons_of_mem b hc
    exact ⟨(hclean c hc).1, (hclean c hc).2.1, (hclean c hc).2.2,
      goSplit_no_slash s c hcs⟩
  rw [hjoin]

/-- Claim C4 witness: the amended theorem evaluated on the clean path
`"bucket/x/y"`, yielding bucket `"bucket"` and key `"x/y"`. -/
theorem c4_resolution_witness :
    initS3Variables (goSplit ['b', 'u', 'c', 'k', 'e', 't', '/', 'x', '/', 'y']) =
      (['b', 'u', 'c', 'k', 'e', 't'], joinSlash [['x'], ['y']]) :=
  c4_resolution ['b', 'u', 'c', 'k', 'e', 't', '/', 'x', '/', 'y']
    ['b', 'u', 'c', 'k', 'e', 't'] [['x'], ['y']] (by decide) (by decide)

/-- Claim C6: when the destination path has exactly one segment (a bucket
with no key segments), the resolved destination key is exactly the base
file name of the `fromPath` hint. -/
theorem c6_default_key_is_base_filename (toPath fromPath : List Char)
    (h : (goSplit toPath).length = 1) :
    uploadResolve toPath fromPath = (toPath, fileNameOf fromPath) := by
  have hs := goSplit_eq_singleton toPath h
  simp only [uploadResolve]
  rw [if_pos h, hs]
  show initS3Variables [toPath, fileNameOf fromPath] = (toPath, fileNameOf fromPath)
  simp only [initS3Variables]
  rw [goJoin_singleton _ (fileNameOf_no_slash fromPath)]

/-- Claim C6 witness: destination path `"mybucket"` with source hint
`"/local/dir/report.csv"` resolves to bucket `"mybucket"` and key
`"report.csv"`. -/
theorem c6_default_key_witness :
    uploadResolve ['m', 'y', 'b', 'u', 'c', 'k', 'e', 't']
      ['/', 'l', 'o', 'c', 'a', 'l', '/', 'd', 'i', 'r', '/',
       'r', 'e', 'p', 'o', 'r', 't', '.', 'c', 's', 'v'] =
      (['m', 'y', 'b', 'u', 'c', 'k', 'e', 't'],
       ['r', 'e', 'p', 'o', 'r', 't', '.', 'c', 's', 'v']) := by
  rw [c6_default_key_is_base_filename _ _ (by decide)]
  decide

/-- Claim C7: when every key the store returns carries the resolved prefix
(which the store guarantees for a prefix-filtered listing), the lister
strips exactly that prefix from each key, preserves the store-returned
order (elementwise, with unchanged length), and prepending the prefix to a
stripped key reconstructs the original stored key exactly. -/
theorem c7_strip_round_trip (pfx : List Char) (keys : List (List Char))
    (h : keys.all (fun k => hasPfx pfx k) = true) :
    getListOfFilesFromS3 pfx keys = keys.map (fun k => k.drop pfx.length) ∧
    (getListOfFilesFromS3 pfx keys).length = keys.length ∧
    ∀ p ∈ (getListOfFilesFromS3 pfx keys).zip keys, pfx ++ p.1 = p.2 := by
  rw [List.all_eq_true] at h
  have hmap : getListOfFilesFromS3 pfx keys = keys.map (fun k => k.drop pfx.length) := by
    unfold getListOfFilesFromS3
    apply List.map_congr_left
    intro k hk
    obtain ⟨t, ht⟩ := (hasPfx_iff pfx k).mp (h k hk)
    subst ht
    rw [replaceFirst_of_append, List.drop_left]
  refine ⟨hmap, by rw [hmap]; simp, ?_⟩
  intro p hp
  rw [hmap] at hp
  have hfst := zip_map_fst (fun k => k.drop pfx.length) keys p hp
  have hsnd : p.2 ∈ keys := by
    obtain ⟨p1, p2⟩ := p
    exact (List.of_mem_zip hp).2
  obtain ⟨t, ht⟩ := (hasPfx_iff pfx p.2).mp (h p.2 hsnd)
  rw [hfst, ht]
  simp [List.drop_left]

/-- Claim C7 witness: listing under prefix `"d/"` with stored keys
`["d/a", "d/b"]` strips the prefix elementwise in order. -/
theorem c7_strip_round_trip_witness :
    getListOfFilesFromS3 ['d', '/'] [['d', '/', 'a'], ['d', '/', 'b']] =
      [['d', '/', 'a'], ['d', '/', 'b']].map
        (fun k => k.drop (['d', '/'] : List Char).length) :=
  (c7_strip_round_trip ['d', '/'] [['d', '/', 'a'], ['d', '/', 'b']] (by decide)).1

/-- Claim C8: the download path fixes the SDK concurrency at exactly 1, and
the `writerWrapper` adapter turns every `WriteAt` call into a sequential
append to the sink; for any call sequence that is strictly sequential from
offset 0 (what a single-threaded segment download produces), the appended
sink contents coincide with true positional `WriteAt` semantics and equal
the chunks concatenated in offset order — the sink never needs
out-of-order positional writes. -/
theorem c8_sequential_writer :
    downloaderConcurrency = 1 ∧
    ∀ calls : List (Int × List Nat), seqFrom 0 calls = true →
      runWriteAt calls = runPositional calls ∧
      runWriteAt calls = (calls.map Prod.snd).flatten := by
  refine ⟨rfl, ?_⟩
  intro calls h
  have hrun := writeAt_fold_sequential calls [] (by simpa using h)
  simpa [runWriteAt, runPositional] using hrun

/-- Claim C8 witness: two sequential chunks land concatenated in offset
order and agree with positional semantics. -/
theorem c8_sequential_writer_witness :
    runWriteAt [((0 : Int), [1, 2]), ((2 : Int), [3, 4])] =
      runPositional [((0 : Int), [1, 2]), ((2 : Int), [3, 4])] ∧
    runWriteAt [((0 : Int), [1, 2]), ((2 : Int), [3, 4])] =
      ([((0 : Int), [1, 2]), ((2 : Int), [3, 4])].map Prod.snd).flatten :=
  c8_sequential_writer.2 [((0 : Int), [1, 2]), ((2 : Int), [3, 4])] (by decide)

end Skbn
